import Mathlib

/-!
Verification development for `build_report.py`, a daily stock-screener that
ranks ticker symbols by a composite heuristic score.

The Python source is shallowly embedded here:
* Python `str` values are modelled as `PyStr := List Char`, and the string
  operations the script uses (`split`, `strip`, `lower`, `replace`, substring
  membership) are defined below with Python's semantics.
* Python floats are modelled as exact rationals `ℚ`; Python's bankers
  `round(x, 2)` is `pyRound2`.
* A Python dict row is modelled as the structure `ScoreRow`; a key that a
  given row dict does not carry (or carries with value `None`) is an `Option`
  field equal to `none`.
* External collaborators (yfinance fetches, `datetime` parsing, git access,
  file IO) are parameters of the embedded functions: a fetch that may raise is
  a function into `Except`, a timestamp parse that may fail is a function into
  `Option`.
* `pandas.sort_values` on the three ranking columns (descending, the default
  `na_position` putting missing values last, stable lexicographic sort) is
  realised by the stable insertion sort `sortStable` with the comparator
  `rowLE`; a stable sort for a total transitive comparator is extensionally
  unique, so this is the same ordering function `pandas` applies.
-/

/-- A Python string, as a list of characters. -/
abbrev PyStr := List Char

/-- Python `str.split(sep)` for a one-character separator: splits on every
occurrence, keeping empty pieces. -/
def splitOnChar (c : Char) : PyStr → List PyStr
  | [] => [[]]
  | a :: rest =>
    let r := splitOnChar c rest
    if a = c then [] :: r
    else
      match r with
      | h :: t => (a :: h) :: t
      | [] => [[a]]

/-- Python `str.strip()`: remove leading and trailing whitespace. -/
def pyStrip (s : PyStr) : PyStr :=
  ((s.dropWhile Char.isWhitespace).reverse.dropWhile Char.isWhitespace).reverse

/-- ASCII lower-casing of one character, as Python `str.lower()` acts on the
ASCII titles and keywords this program handles. -/
def lowerChar (c : Char) : Char :=
  if 65 ≤ c.toNat ∧ c.toNat ≤ 90 then Char.ofNat (c.toNat + 32) else c

/-- Python `str.lower()`. -/
def pyLower (s : PyStr) : PyStr := s.map lowerChar

/-- Boolean test that `needle` is a leading piece of `hay`. -/
def headMatches : PyStr → PyStr → Bool
  | [], _ => true
  | _ :: _, [] => false
  | a :: as2, b :: bs => a == b && headMatches as2 bs

/-- Python `needle in hay` substring membership. -/
def containsStr (needle : PyStr) : PyStr → Bool
  | [] => needle.isEmpty
  | h :: t => headMatches needle (h :: t) || containsStr needle t

/-- Python `s.replace("Z", "")`: drop every occurrence of the character. -/
def removeChar (c : Char) (s : PyStr) : PyStr := s.filter (fun a => a ≠ c)

/-- Source line 9: `VOL_SMA_WINDOW = 50`. -/
def VOL_SMA_WINDOW : ℕ := 50

/-- Source line 10: `GAP_THRESHOLD = 0.10`. -/
def GAP_THRESHOLD : ℚ := 10 / 100

/-- Source line 11: `VOL_RATIO_GOOD = 2.0`. -/
def VOL_RATIO_GOOD : ℚ := 2

/-- Source lines 12-16: the fixed `NEWS_KEYWORDS` list (all lowercase). -/
def NEWS_KEYWORDS : List PyStr :=
  ["earnings".data, "guidance".data, "revenue".data, "eps".data, "beats".data,
   "miss".data, "acquire".data, "acquisition".data, "merger".data,
   "partnership".data, "strategic".data, "approval".data, "fda".data,
   "phase".data, "contract".data, "order".data, "upgrade".data,
   "initiates coverage".data]

/-- One session of price history: the `Open`, `Close` and `Volume` columns of
a yfinance history row, plus its date label. -/
structure PriceBar where
  date : PyStr
  openPrice : ℚ
  closePrice : ℚ
  volume : ℚ
deriving DecidableEq

instance : Inhabited PriceBar := ⟨⟨[], 0, 0, 0⟩⟩

/-- The dict returned by `compute_gap_and_volume_metrics` on success
(source line 49). -/
structure MetricResult where
  gap_pct : ℚ
  vol_ratio : ℚ
  close : ℚ
  date : PyStr
deriving DecidableEq

/-- A raw news timestamp: Python distinguishes a numeric epoch value from a
string (source line 29's `isinstance` test). -/
inductive TsValue where
  | num (n : ℤ)
  | str (s : PyStr)
deriving DecidableEq

/-- A news item dict as `get_news_score` reads it: the two timestamp keys and
the title, each possibly absent. -/
structure NewsItem where
  providerPublishTime : Option TsValue
  published : Option TsValue
  title : Option PyStr
deriving DecidableEq

/-- One output row. Each `Option` field is `none` exactly when the row dict
built at source line 68, 75 or 77 does not carry that key (or carries `None`).
The `institutional_interest_score` field is included because the spec lists
it; no row constructor in the source ever sets it. -/
structure ScoreRow where
  ticker : PyStr
  gap_pct : Option ℚ
  vol_ratio : Option ℚ
  fresh_catalyst_score : Option ℚ
  institutional_interest_score : Option ℚ
  justified_story_score : Option ℚ
  rerating_potential : Option ℚ
  overall : ℚ
  last_date : Option PyStr
  price : Option ℚ
  error : Option PyStr
deriving DecidableEq

/-- Python `round` to the nearest integer, ties to even (bankers rounding). -/
def pyRoundInt (q : ℚ) : ℤ :=
  if q - ⌊q⌋ < 1 / 2 then ⌊q⌋
  else if 1 / 2 < q - ⌊q⌋ then ⌊q⌋ + 1
  else if ⌊q⌋ % 2 = 0 then ⌊q⌋ else ⌊q⌋ + 1

/-- Python `round(q, 2)`. -/
def pyRound2 (q : ℚ) : ℚ := (pyRoundInt (q * 100) : ℚ) / 100

/-- Source line 20-21 (`load_tickers`, minus the file read, which is the
external collaborator): split the raw text on newlines then commas, strip
each token, drop empties. -/
def load_tickers (txt : PyStr) : List PyStr :=
  (((splitOnChar '\n' txt).flatMap (splitOnChar ',')).map pyStrip).filter
    (fun t => ¬t.isEmpty)

/-- Python truthiness of a timestamp value, for the `or` at source line 26. -/
def truthyTs : TsValue → Bool
  | .num n => n != 0
  | .str s => !s.isEmpty

/-- Source line 26: `ts = n.get("providerPublishTime") or n.get("published")`.
A falsy first operand (absent key, `0`, or `""`) falls through to the second. -/
def resolveTs (n : NewsItem) : Option TsValue :=
  match n.providerPublishTime with
  | some v => if truthyTs v then some v else n.published
  | none => n.published

/-- Source line 29: numeric timestamps go through `datetime.utcfromtimestamp`
(`utc`), strings through `datetime.fromisoformat` after `replace("Z","")`
(`iso`). Both library calls are external collaborators passed in as functions;
`none` models the call raising, which source line 30-31 turns into a skip. -/
def parseTs (utc : ℤ → Option ℤ) (iso : PyStr → Option ℤ) : TsValue → Option ℤ
  | .num k => utc k
  | .str s => iso (removeChar 'Z' s)

/-- Source line 33: `(n.get("title") or "").lower()`. -/
def titleLower (n : NewsItem) : PyStr := pyLower (n.title.getD [])

/-- Source lines 34-37: how many fixed keywords occur as substrings of the
lowercased title; each adds `1.0` to the item contribution. -/
def keywordHits (title : PyStr) : ℕ :=
  (NEWS_KEYWORDS.filter (fun kw => containsStr kw title)).length

/-- The body of the `for` loop of `get_news_score` (source lines 25-38): one
item either leaves the accumulator unchanged (missing/unparseable timestamp,
or published strictly before the cutoff) or adds `min(0.5 + hits, 3.0)`. -/
def newsItemStep (utc : ℤ → Option ℤ) (iso : PyStr → Option ℤ) (since_ts : ℤ)
    (score : ℚ) (n : NewsItem) : ℚ :=
  match resolveTs n with
  | none => score
  | some v =>
    match parseTs utc iso v with
    | none => score
    | some published =>
      if published < since_ts then score
      else score + min (1 / 2 + (keywordHits (titleLower n) : ℚ)) 3

/-- Source lines 23-39: `get_news_score(news_items, since_ts)`, the loop
folded over the items and the final `min(score, 10.0)`. -/
def get_news_score (utc : ℤ → Option ℤ) (iso : PyStr → Option ℤ)
    (news_items : List NewsItem) (since_ts : ℤ) : ℚ :=
  min (news_items.foldl (newsItemStep utc iso since_ts) 0) 10

/-- Source lines 41-49, minus the yfinance fetch (the external collaborator):
the metric computation on an already-fetched history. `hist.empty or
len(hist) < VOL_SMA_WINDOW+2` collapses to the single length test;
`hist.iloc[-1]` and `hist.iloc[-2]` are the positions `length-1` and
`length-2`; the last entry of `rolling(VOL_SMA_WINDOW).mean()` is the mean of
the final `VOL_SMA_WINDOW` volumes, i.e. of `drop (length-VOL_SMA_WINDOW)`. -/
def compute_gap_and_volume_metrics (hist : List PriceBar) : Option MetricResult :=
  if hist.length < VOL_SMA_WINDOW + 2 then none
  else
    let last := hist.getD (hist.length - 1) default
    let prev := hist.getD (hist.length - 2) default
    let adv :=
      ((hist.drop (hist.length - VOL_SMA_WINDOW)).map PriceBar.volume).sum /
        (VOL_SMA_WINDOW : ℚ)
    some { gap_pct := (last.openPrice - prev.closePrice) / prev.closePrice
           vol_ratio := last.volume / max 1 adv
           close := last.closePrice
           date := last.date }

/-- Source line 70: `fresh = min(5.0, news_score)`. -/
def fresh_catalyst (news_score : ℚ) : ℚ := min 5 news_score

/-- Source line 71: the institutional-interest cascade, first match wins. -/
def institutional_interest (gap_pct vol_ratio : ℚ) : ℚ :=
  if gap_pct ≥ GAP_THRESHOLD ∧ vol_ratio ≥ VOL_RATIO_GOOD then 5
  else if gap_pct ≥ 5 / 100 ∧ vol_ratio ≥ 3 / 2 then 3
  else if vol_ratio ≥ 6 / 5 then 3 / 2
  else 0

/-- Source line 72: `justified = 4.0 if (fresh>=2.0 and inst>=3.0) else
(2.0 if fresh>0 else 0.5)`. -/
def justified_story (fresh inst : ℚ) : ℚ :=
  if fresh ≥ 2 ∧ inst ≥ 3 then 4
  else if fresh > 0 then 2
  else 1 / 2

/-- Source line 73: `rerate = min(5.0, fresh + (inst/2.0))`. -/
def rerating (fresh inst : ℚ) : ℚ := min 5 (fresh + inst / 2)

/-- Source line 74: the rounded weighted sum. -/
def overall_score (fresh inst justified rerate : ℚ) : ℚ :=
  pyRound2 (fresh * (4 / 10) + inst * (35 / 100) + justified * (15 / 100) +
    rerate * (10 / 100))

/-- Source line 68: the row appended when `metrics is None`. `gap_pct` and
`vol_ratio` carry `None`; the three sub-score keys the dict carries are `0.0`;
no `institutional_interest_score`, `last_date`, `price` or `error` key. -/
def insufficientRow (t : PyStr) : ScoreRow :=
  { ticker := t, gap_pct := none, vol_ratio := none,
    fresh_catalyst_score := some 0, institutional_interest_score := none,
    justified_story_score := some 0, rerating_potential := some 0,
    overall := 0, last_date := none, price := none, error := none }

/-- Source line 77: the row appended when the `try` body raises: only
`ticker`, `overall=0.0` and the error string. -/
def errorRow (t e : PyStr) : ScoreRow :=
  { ticker := t, gap_pct := none, vol_ratio := none,
    fresh_catalyst_score := none, institutional_interest_score := none,
    justified_story_score := none, rerating_potential := none,
    overall := 0, last_date := none, price := none, error := some e }

/-- Source line 75: the row appended for a scored ticker. `gap_pct` is
published as `round(gap*100, 2)`, the other numeric keys as `round(·, 2)`;
the computed `inst` value is used by lines 71-74 but the dict carries no
`institutional_interest_score` key. -/
def scoredRow (t : PyStr) (m : MetricResult) (news_score : ℚ) : ScoreRow :=
  let fresh := fresh_catalyst news_score
  let inst := institutional_interest m.gap_pct m.vol_ratio
  let justified := justified_story fresh inst
  let rerate := rerating fresh inst
  { ticker := t, gap_pct := some (pyRound2 (m.gap_pct * 100)),
    vol_ratio := some (pyRound2 m.vol_ratio),
    fresh_catalyst_score := some (pyRound2 fresh),
    institutional_interest_score := none,
    justified_story_score := some (pyRound2 justified),
    rerating_potential := some (pyRound2 rerate),
    overall := overall_score fresh inst justified rerate,
    last_date := some m.date, price := some m.close, error := none }

/-- The fallible fetches inside the `try` block (source lines 63-65): first
the history fetch inside `compute_gap_and_volume_metrics`, then
`yf.Ticker(t).news`. The first exception wins, as in Python. -/
def fetch_ticker_data (getHistory : PyStr → Except PyStr (List PriceBar))
    (getNews : PyStr → Except PyStr (List NewsItem)) (t : PyStr) :
    Except PyStr (List PriceBar × List NewsItem) :=
  match getHistory t with
  | .error e => .error e
  | .ok h =>
    match getNews t with
    | .error e => .error e
    | .ok ns => .ok (h, ns)

/-- Source lines 62-77: one iteration of the per-ticker loop. An exception
from either fetch is caught and becomes `errorRow`; otherwise the metric
result decides between the insufficient-data row and the scored row. -/
def processTicker (getHistory : PyStr → Except PyStr (List PriceBar))
    (getNews : PyStr → Except PyStr (List NewsItem))
    (utc : ℤ → Option ℤ) (iso : PyStr → Option ℤ) (since_ts : ℤ)
    (t : PyStr) : ScoreRow :=
  match fetch_ticker_data getHistory getNews t with
  | .error e => errorRow t e
  | .ok (h, ns) =>
    match compute_gap_and_volume_metrics h with
    | none => insufficientRow t
    | some m => scoredRow t m (get_news_score utc iso ns since_ts)

/-- Source lines 61-77: the full loop over the ticker list. -/
def build_rows (getHistory : PyStr → Except PyStr (List PriceBar))
    (getNews : PyStr → Except PyStr (List NewsItem))
    (utc : ℤ → Option ℤ) (iso : PyStr → Option ℤ) (since_ts : ℤ)
    (tickers : List PyStr) : List ScoreRow :=
  tickers.map (processTicker getHistory getNews utc iso since_ts)

/-- Descending comparison of two rationals: `.lt` means the first argument
comes first in a descending sort. -/
def cmpRatDesc (x y : ℚ) : Ordering :=
  if y < x then .lt else if x < y then .gt else .eq

/-- Descending comparison of one sort-key column, a missing value (`NaN` in
the DataFrame) placed last, as `sort_values` does with its default
`na_position`. -/
def cmpOptRatDesc (x y : Option ℚ) : Ordering :=
  match x, y with
  | some a, some b => cmpRatDesc a b
  | some _, none => .lt
  | none, some _ => .gt
  | none, none => .eq

/-- Source line 79's three-column lexicographic key:
`by=["overall","fresh_catalyst_score","vol_ratio"], ascending=[False]*3`. -/
def rowCmp (a b : ScoreRow) : Ordering :=
  (cmpRatDesc a.overall b.overall).then
    ((cmpOptRatDesc a.fresh_catalyst_score b.fresh_catalyst_score).then
      (cmpOptRatDesc a.vol_ratio b.vol_ratio))

/-- The non-strict total comparator induced by `rowCmp`. -/
def rowLE (a b : ScoreRow) : Bool :=
  match rowCmp a b with
  | .gt => false
  | _ => true

/-- Insert `x` behind every already-placed element it does not strictly
precede: the insertion step of a stable sort. -/
def insertStable (le : α → α → Bool) (x : α) : List α → List α
  | [] => [x]
  | h :: t => if le h x then h :: insertStable le x t else x :: h :: t

/-- Stable sort by a comparator: items are inserted in arrival order, each
going after any earlier item it ties with. For a transitive total comparator
this is the unique stable sort, hence the same list `pandas`'s stable
lexicographic `sort_values` produces. -/
def sortStable (le : α → α → Bool) (l : List α) : List α :=
  l.foldl (fun acc x => insertStable le x acc) []

/-- Source line 79: rank all rows. -/
def rankRows (rows : List ScoreRow) : List ScoreRow := sortStable rowLE rows

/-- Source lines 58-79 of `build`, up to the report rendering (an external
concern): load the tickers, process each, rank. -/
def build (getHistory : PyStr → Except PyStr (List PriceBar))
    (getNews : PyStr → Except PyStr (List NewsItem))
    (utc : ℤ → Option ℤ) (iso : PyStr → Option ℤ) (since_ts : ℤ)
    (universe_text : PyStr) : List ScoreRow :=
  rankRows (build_rows getHistory getNews utc iso since_ts
    (load_tickers universe_text))

/-- Lexicographic byte-order comparison of two Python strings, as Python
`sorted` orders them. -/
def strLeB : PyStr → PyStr → Bool
  | [], _ => true
  | _ :: _, [] => false
  | a :: as2, b :: bs =>
    if a.toNat < b.toNat then true
    else if b.toNat < a.toNat then false
    else strLeB as2 bs

/-- Source lines 51-56 (`compute_diff`), with the two text sources passed in:
`prev_content` is what `git show HEAD~1:qm1w.txt` printed (the empty string
when that external call fails, thanks to `2>/dev/null`), `cur_content` the
current universe file. Python's `set` is modelled by `dedup`, `sorted` by
`sortStable strLeB`. Line 53 tokenises the previous text exactly as
`load_tickers` does (strip after comma/newline splits, drop falsy tokens). -/
def compute_diff (prev_content cur_content : PyStr) : List PyStr × List PyStr :=
  let prev := (load_tickers prev_content).dedup
  let cur := (load_tickers cur_content).dedup
  (sortStable strLeB (cur.filter (fun t => t ∉ prev)),
   sortStable strLeB (prev.filter (fun t => t ∉ cur)))

/-- A filler session used to build concrete histories in the examples. -/
def bar0 : PriceBar := ⟨"2024-01-01".data, 10, 10, 100⟩

/-- The most recent session of the concrete example history: it opens at 11
after the previous close of 10 (a 10% gap) on volume 200. -/
def barLast : PriceBar := ⟨"2024-06-01".data, 11, 12, 200⟩

/-- A concrete 52-bar history, exactly the minimum usable length. -/
def hist52 : List PriceBar := List.replicate 51 bar0 ++ [barLast]

/-- A concrete 2-bar history, shorter than the 52-bar minimum. -/
def histShort : List PriceBar := [bar0, barLast]

/-- A history provider that always succeeds with `hist52`. -/
def okHistory : PyStr → Except PyStr (List PriceBar) := fun _ => .ok hist52

/-- A news provider that always succeeds with no items. -/
def okNews : PyStr → Except PyStr (List NewsItem) := fun _ => .ok []

/-- A concrete stand-in for `datetime.utcfromtimestamp`: epoch seconds map to
themselves. -/
def epochParse : ℤ → Option ℤ := fun n => some n

/-- A concrete stand-in for `datetime.fromisoformat` that accepts nothing. -/
def noIsoParse : PyStr → Option ℤ := fun _ => none

/-- A history provider that raises on ticker `T` and succeeds elsewhere. -/
def mixedHistory : PyStr → Except PyStr (List PriceBar) :=
  fun t => if t = "T".data then .error "boom".data else .ok hist52

theorem perm_insertStable (le : α → α → Bool) (x : α) (l : List α) :
    List.Perm (insertStable le x l) (x :: l) := by
  induction l with
  | nil => exact List.Perm.refl _
  | cons h t ih =>
    by_cases hc : le h x = true
    · simpa [insertStable, hc] using ((ih.cons h).trans (List.Perm.swap x h t))
    · simp [insertStable, hc]

theorem perm_sortStable_aux (le : α → α → Bool) (l acc : List α) :
    List.Perm (l.foldl (fun acc x => insertStable le x acc) acc) (acc ++ l) := by
  induction l generalizing acc with
  | nil => simp
  | cons x t ih =>
    have h1 : List.Perm (t.foldl (fun acc x => insertStable le x acc)
        (insertStable le x acc)) (insertStable le x acc ++ t) := ih _
    have h2 : List.Perm (insertStable le x acc ++ t) ((x :: acc) ++ t) :=
      (perm_insertStable le x acc).append_right t
    have h3 : List.Perm ((x :: acc) ++ t) (acc ++ x :: t) := List.perm_middle.symm
    exact (h1.trans h2).trans h3

theorem perm_sortStable (le : α → α → Bool) (l : List α) :
    List.Perm (sortStable le l) l := by
  simpa using perm_sortStable_aux le l []

theorem pairwise_insertStable (le : α → α → Bool)
    (htotal : ∀ a b, le a b = true ∨ le b a = true)
    (htrans : ∀ a b c, le a b = true → le b c = true → le a c = true)
    (x : α) (l : List α) (hl : l.Pairwise (fun a b => le a b = true)) :
    (insertStable le x l).Pairwise (fun a b => le a b = true) := by
  induction l with
  | nil => simp [insertStable]
  | cons h t ih =>
    rcases List.pairwise_cons.mp hl with ⟨hh, ht⟩
    by_cases hc : le h x = true
    · rw [insertStable, if_pos hc]
      refine List.pairwise_cons.mpr ⟨?_, ih ht⟩
      intro y hy
      rcases List.mem_cons.mp ((perm_insertStable le x t).mem_iff.mp hy) with rfl | hyt
      · exact hc
      · exact hh y hyt
    · rw [insertStable, if_neg hc]
      have hxh : le x h = true := (htotal h x).resolve_left hc
      refine List.pairwise_cons.mpr ⟨?_, hl⟩
      intro y hy
      rcases List.mem_cons.mp hy with rfl | hyt
      · exact hxh
      · exact htrans x h y hxh (hh y hyt)

theorem pairwise_sortStable_aux (le : α → α → Bool)
    (htotal : ∀ a b, le a b = true ∨ le b a = true)
    (htrans : ∀ a b c, le a b = true → le b c = true → le a c = true)
    (l acc : List α) (hacc : acc.Pairwise (fun a b => le a b = true)) :
    (l.foldl (fun acc x => insertStable le x acc) acc).Pairwise
      (fun a b => le a b = true) := by
  induction l generalizing acc with
  | nil => exact hacc
  | cons x t ih => exact ih _ (pairwise_insertStable le htotal htrans x acc hacc)

theorem pairwise_sortStable (le : α → α → Bool)
    (htotal : ∀ a b, le a b = true ∨ le b a = true)
    (htrans : ∀ a b c, le a b = true → le b c = true → le a c = true)
    (l : List α) :
    (sortStable le l).Pairwise (fun a b => le a b = true) :=
  pairwise_sortStable_aux le htotal htrans l [] List.Pairwise.nil

/-- Strict precedence of one sort-key column in the descending output order:
a present value precedes a smaller present value, and any present value
precedes an absent one — "a missing `vol_ratio` sorts as if it were the
lowest possible value in this descending order". -/
def optPrecedes (x y : Option ℚ) : Prop :=
  match x, y with
  | some a, some b => b < a
  | some _, none => True
  | none, _ => False

/-- The ranking order claimed for the final row sequence: descending by the
tuple `(overall, fresh_catalyst_score, vol_ratio)` — ties on `overall` broken
by `fresh_catalyst_score`, remaining ties by `vol_ratio` — with an absent
column value ordered below every present one. -/
def claimRank (a b : ScoreRow) : Prop :=
  b.overall < a.overall ∨
    (a.overall = b.overall ∧
      (optPrecedes a.fresh_catalyst_score b.fresh_catalyst_score ∨
        (a.fresh_catalyst_score = b.fresh_catalyst_score ∧
          (optPrecedes a.vol_ratio b.vol_ratio ∨ a.vol_ratio = b.vol_ratio))))

theorem cmpRatDesc_lt_iff (x y : ℚ) : cmpRatDesc x y = .lt ↔ y < x := by
  unfold cmpRatDesc
  split_ifs with h1 h2 <;> simpa using h1

theorem cmpRatDesc_gt_iff (x y : ℚ) : cmpRatDesc x y = .gt ↔ x < y := by
  unfold cmpRatDesc
  split_ifs with h1 h2
  · simp only [reduceCtorEq, false_iff]
    intro h
    linarith
  · simpa using h2
  · simpa using h2

theorem cmpRatDesc_eq_iff (x y : ℚ) : cmpRatDesc x y = .eq ↔ x = y := by
  unfold cmpRatDesc
  split_ifs with h1 h2
  · simp only [reduceCtorEq, false_iff]
    intro h
    subst h
    exact lt_irrefl x h1
  · simp only [reduceCtorEq, false_iff]
    intro h
    subst h
    exact lt_irrefl x h2
  · simp only [true_iff]
    exact le_antisymm (not_lt.mp h1) (not_lt.mp h2)

theorem cmpOptRatDesc_lt_iff (x y : Option ℚ) :
    cmpOptRatDesc x y = .lt ↔ optPrecedes x y := by
  cases x <;> cases y <;>
    simp [cmpOptRatDesc, optPrecedes, cmpRatDesc_lt_iff]

theorem cmpOptRatDesc_gt_iff (x y : Option ℚ) :
    cmpOptRatDesc x y = .gt ↔ optPrecedes y x := by
  cases x <;> cases y <;>
    simp [cmpOptRatDesc, optPrecedes, cmpRatDesc_gt_iff]

theorem cmpOptRatDesc_eq_iff (x y : Option ℚ) :
    cmpOptRatDesc x y = .eq ↔ x = y := by
  cases x <;> cases y <;>
    simp [cmpOptRatDesc, optPrecedes, cmpRatDesc_eq_iff]

theorem optPrecedes_irrefl (x : Option ℚ) : ¬optPrecedes x x := by
  cases x <;> simp [optPrecedes]

theorem optPrecedes_asymm (x y : Option ℚ) :
    optPrecedes x y → ¬optPrecedes y x := by
  cases x <;> cases y <;> simp [optPrecedes]
  intro h
  linarith

theorem optPrecedes_trans (x y z : Option ℚ) :
    optPrecedes x y → optPrecedes y z → optPrecedes x z := by
  cases x <;> cases y <;> cases z <;> simp [optPrecedes]
  intro h1 h2
  linarith

theorem optPrecedes_trichotomy (x y : Option ℚ) :
    optPrecedes x y ∨ x = y ∨ optPrecedes y x := by
  cases x with
  | none =>
    cases y with
    | none => exact Or.inr (Or.inl rfl)
    | some b => exact Or.inr (Or.inr trivial)
  | some a =>
    cases y with
    | none => exact Or.inl trivial
    | some b =>
      rcases lt_trichotomy b a with h | h | h
      · exact Or.inl h
      · exact Or.inr (Or.inl (by rw [h]))
      · exact Or.inr (Or.inr h)

theorem rowLE_iff_claimRank (a b : ScoreRow) :
    rowLE a b = true ↔ claimRank a b := by
  unfold rowLE rowCmp claimRank
  cases ho : cmpRatDesc a.overall b.overall with
  | lt =>
    have h := (cmpRatDesc_lt_iff _ _).mp ho
    simp [Ordering.then, h]
  | gt =>
    have h := (cmpRatDesc_gt_iff _ _).mp ho
    have hne : ¬a.overall = b.overall := by
      intro e
      rw [e] at h
      exact lt_irrefl _ h
    have hnl : ¬b.overall < a.overall := by linarith
    simp [Ordering.then, hne, hnl]
  | eq =>
    have hov : a.overall = b.overall := (cmpRatDesc_eq_iff _ _).mp ho
    have hnl : ¬b.overall < a.overall := by
      rw [hov]
      exact lt_irrefl _
    cases hf : cmpOptRatDesc a.fresh_catalyst_score b.fresh_catalyst_score with
    | lt =>
      have h := (cmpOptRatDesc_lt_iff _ _).mp hf
      simp [Ordering.then, hnl, hov, h]
    | gt =>
      have h := (cmpOptRatDesc_gt_iff _ _).mp hf
      have hne : ¬a.fresh_catalyst_score = b.fresh_catalyst_score := by
        intro e
        rw [e] at h
        exact optPrecedes_irrefl _ h
      have hnp : ¬optPrecedes a.fresh_catalyst_score b.fresh_catalyst_score :=
        optPrecedes_asymm _ _ h
      simp [Ordering.then, hnl, hne, hnp]
    | eq =>
      have hfr : a.fresh_catalyst_score = b.fresh_catalyst_score :=
        (cmpOptRatDesc_eq_iff _ _).mp hf
      have hnf : ¬optPrecedes a.fresh_catalyst_score b.fresh_catalyst_score := by
        rw [hfr]
        exact optPrecedes_irrefl _
      cases hv : cmpOptRatDesc a.vol_ratio b.vol_ratio with
      | lt =>
        have h := (cmpOptRatDesc_lt_iff _ _).mp hv
        simp [Ordering.then, hnl, hov, hnf, hfr, h]
      | gt =>
        have h := (cmpOptRatDesc_gt_iff _ _).mp hv
        have hne : ¬a.vol_ratio = b.vol_ratio := by
          intro e
          rw [e] at h
          exact optPrecedes_irrefl _ h
        have hnp : ¬optPrecedes a.vol_ratio b.vol_ratio :=
          optPrecedes_asymm _ _ h
        simp [Ordering.then, hnl, hnf, hne, hnp]
      | eq =>
        have hvr : a.vol_ratio = b.vol_ratio :=
          (cmpOptRatDesc_eq_iff _ _).mp hv
        simp [Ordering.then, hov, hfr, hvr]

theorem claimRank_total (a b : ScoreRow) : claimRank a b ∨ claimRank b a := by
  unfold claimRank
  rcases lt_trichotomy a.overall b.overall with h | h | h
  · exact Or.inr (Or.inl h)
  · rcases optPrecedes_trichotomy a.fresh_catalyst_score b.fresh_catalyst_score
      with hf | hf | hf
    · exact Or.inl (Or.inr ⟨h, Or.inl hf⟩)
    · rcases optPrecedes_trichotomy a.vol_ratio b.vol_ratio with hv | hv | hv
      · exact Or.inl (Or.inr ⟨h, Or.inr ⟨hf, Or.inl hv⟩⟩)
      · exact Or.inl (Or.inr ⟨h, Or.inr ⟨hf, Or.inr hv⟩⟩)
      · exact Or.inr (Or.inr ⟨h.symm, Or.inr ⟨hf.symm, Or.inl hv⟩⟩)
    · exact Or.inr (Or.inr ⟨h.symm, Or.inl hf⟩)
  · exact Or.inl (Or.inl h)

theorem claimRank_trans (a b c : ScoreRow) :
    claimRank a b → claimRank b c → claimRank a c := by
  unfold claimRank
  rintro (h1 | ⟨e1, h1⟩) (h2 | ⟨e2, h2⟩)
  · exact Or.inl (h2.trans h1)
  · exact Or.inl (e2 ▸ h1)
  · exact Or.inl (e1 ▸ h2)
  · refine Or.inr ⟨e1.trans e2, ?_⟩
    rcases h1 with hf1 | ⟨ef1, h1⟩
    · rcases h2 with hf2 | ⟨ef2, _⟩
      · exact Or.inl (optPrecedes_trans _ _ _ hf1 hf2)
      · exact Or.inl (ef2 ▸ hf1)
    · rcases h2 with hf2 | ⟨ef2, h2⟩
      · exact Or.inl (ef1 ▸ hf2)
      · refine Or.inr ⟨ef1.trans ef2, ?_⟩
        rcases h1 with hv1 | ev1
        · rcases h2 with hv2 | ev2
          · exact Or.inl (optPrecedes_trans _ _ _ hv1 hv2)
          · exact Or.inl (ev2 ▸ hv1)
        · rcases h2 with hv2 | ev2
          · exact Or.inl (ev1 ▸ hv2)
          · exact Or.inr (ev1.trans ev2)

theorem rowLE_total (a b : ScoreRow) : rowLE a b = true ∨ rowLE b a = true := by
  rcases claimRank_total a b with h | h
  · exact Or.inl ((rowLE_iff_claimRank a b).mpr h)
  · exact Or.inr ((rowLE_iff_claimRank b a).mpr h)

theorem rowLE_trans (a b c : ScoreRow) :
    rowLE a b = true → rowLE b c = true → rowLE a c = true := by
  intro h1 h2
  exact (rowLE_iff_claimRank a c).mpr
    (claimRank_trans a b c ((rowLE_iff_claimRank a b).mp h1)
      ((rowLE_iff_claimRank b c).mp h2))

/-- C4: the final sequence of `ScoreRow`s emitted by `build` is sorted
descending by the tuple `(overall, fresh_catalyst_score, vol_ratio)` — ties
on `overall` broken by `fresh_catalyst_score`, remaining ties broken by
`vol_ratio` — and any row whose `vol_ratio` is absent sorts as if `vol_ratio`
were the lowest possible value in this descending order (`claimRank` states
exactly this order, with the same absent-as-lowest rule on the
`fresh_catalyst_score` tie-breaker). -/
theorem ranking_sorted_by_claimed_order
    (getHistory : PyStr → Except PyStr (List PriceBar))
    (getNews : PyStr → Except PyStr (List NewsItem))
    (utc : ℤ → Option ℤ) (iso : PyStr → Option ℤ) (since_ts : ℤ)
    (universe_text : PyStr) :
    (build getHistory getNews utc iso since_ts universe_text).Pairwise
      claimRank := by
  unfold build rankRows
  exact (pairwise_sortStable rowLE rowLE_total rowLE_trans _).imp
    (fun h => (rowLE_iff_claimRank _ _).mp h)

/-- The per-item contribution as the spec describes it: `0` for a skipped
item (timestamp missing or unparseable, or published strictly before the
cutoff), otherwise `min(3.0, 0.5 + 1.0 × keyword hits on the lowercased
title)`. -/
def newsContribution (utc : ℤ → Option ℤ) (iso : PyStr → Option ℤ)
    (since_ts : ℤ) (n : NewsItem) : ℚ :=
  match (resolveTs n).bind (parseTs utc iso) with
  | none => 0
  | some published =>
    if published < since_ts then 0
    else min 3 (1 / 2 + (keywordHits (titleLower n) : ℚ))

theorem newsItemStep_eq_add (utc : ℤ → Option ℤ) (iso : PyStr → Option ℤ)
    (since_ts : ℤ) (s : ℚ) (n : NewsItem) :
    newsItemStep utc iso since_ts s n =
      s + newsContribution utc iso since_ts n := by
  unfold newsItemStep newsContribution
  cases h : resolveTs n with
  | none => simp [h]
  | some v =>
    cases hp : parseTs utc iso v with
    | none => simp [h, hp]
    | some published =>
      simp only [h, Option.some_bind, hp]
      split_ifs with hlt
      · simp
      · rw [min_comm]

theorem foldl_newsItemStep (utc : ℤ → Option ℤ) (iso : PyStr → Option ℤ)
    (since_ts : ℤ) (items : List NewsItem) :
    ∀ acc : ℚ, items.foldl (newsItemStep utc iso since_ts) acc =
      acc + (items.map (newsContribution utc iso since_ts)).sum := by
  induction items with
  | nil => intro acc; simp
  | cons n t ih =>
    intro acc
    simp only [List.foldl_cons, List.map_cons, List.sum_cons,
      newsItemStep_eq_add]
    rw [ih]
    ring

theorem newsContribution_nonneg (utc : ℤ → Option ℤ) (iso : PyStr → Option ℤ)
    (since_ts : ℤ) (n : NewsItem) :
    0 ≤ newsContribution utc iso since_ts n := by
  unfold newsContribution
  cases h : (resolveTs n).bind (parseTs utc iso) with
  | none => exact le_refl 0
  | some p =>
    simp only
    split_ifs with hlt
    · exact le_refl 0
    · refine le_min (by norm_num) ?_
      positivity

/-- C6: `get_news_score` skips silently (it is a total function of the item
list; a missing or unparseable timestamp, and a publication strictly before
the cutoff, contribute `0`) and every remaining item contributes exactly
`min(3.0, 0.5 + 1.0 × keyword hits on the lowercased title)` to the
(finally capped) sum, as `newsContribution` states. -/
theorem news_score_is_sum_of_contributions (utc : ℤ → Option ℤ)
    (iso : PyStr → Option ℤ) (items : List NewsItem) (since_ts : ℤ) :
    get_news_score utc iso items since_ts =
      min ((items.map (newsContribution utc iso since_ts)).sum) 10 := by
  unfold get_news_score
  rw [foldl_newsItemStep]
  simp

/-- C7: the news score always lies in `[0, 10]`, and appending one more item
to the list never decreases it. -/
theorem news_score_bounded_and_monotone (utc : ℤ → Option ℤ)
    (iso : PyStr → Option ℤ) (items : List NewsItem) (since_ts : ℤ)
    (x : NewsItem) :
    (0 ≤ get_news_score utc iso items since_ts ∧
        get_news_score utc iso items since_ts ≤ 10) ∧
      get_news_score utc iso items since_ts ≤
        get_news_score utc iso (items ++ [x]) since_ts := by
  have h1 : ∀ its : List NewsItem, get_news_score utc iso its since_ts =
      min ((its.map (newsContribution utc iso since_ts)).sum) 10 := by
    intro its
    unfold get_news_score
    rw [foldl_newsItemStep]
    simp
  refine ⟨⟨?_, ?_⟩, ?_⟩
  · rw [h1]
    refine le_min ?_ (by norm_num)
    refine List.sum_nonneg ?_
    intro q hq
    rcases List.mem_map.mp hq with ⟨n, _, rfl⟩
    exact newsContribution_nonneg utc iso since_ts n
  · rw [h1]
    exact min_le_right _ _
  · rw [h1, h1]
    refine min_le_min ?_ (le_refl 10)
    simp only [List.map_append, List.sum_append, List.map_cons, List.map_nil,
      List.sum_cons, List.sum_nil]
    have := newsContribution_nonneg utc iso since_ts x
    linarith

/-- C5: for every `(gap_pct, vol_ratio)` pair the institutional-interest
score is one of `{0.0, 1.5, 3.0, 5.0}`, assigned first-match-wins: `5.0` when
`gap_pct ≥ 0.10` and `vol_ratio ≥ 2.0`; else `3.0` when `gap_pct ≥ 0.05` and
`vol_ratio ≥ 1.5`; else `1.5` when `vol_ratio ≥ 1.2`; else `0.0`. The four
disjuncts below carry the negations of all earlier tiers, so they are
mutually exclusive by construction, and their disjunction is exhaustive. -/
theorem institutional_tiers_exclusive_exhaustive (gap_pct vol_ratio : ℚ) :
    (institutional_interest gap_pct vol_ratio = 0 ∨
      institutional_interest gap_pct vol_ratio = 3 / 2 ∨
      institutional_interest gap_pct vol_ratio = 3 ∨
      institutional_interest gap_pct vol_ratio = 5) ∧
    ((gap_pct ≥ 10 / 100 ∧ vol_ratio ≥ 2) ∧
        institutional_interest gap_pct vol_ratio = 5 ∨
      (¬(gap_pct ≥ 10 / 100 ∧ vol_ratio ≥ 2) ∧
        (gap_pct ≥ 5 / 100 ∧ vol_ratio ≥ 3 / 2) ∧
        institutional_interest gap_pct vol_ratio = 3) ∨
      (¬(gap_pct ≥ 10 / 100 ∧ vol_ratio ≥ 2) ∧
        ¬(gap_pct ≥ 5 / 100 ∧ vol_ratio ≥ 3 / 2) ∧ vol_ratio ≥ 6 / 5 ∧
        institutional_interest gap_pct vol_ratio = 3 / 2) ∨
      (¬(gap_pct ≥ 10 / 100 ∧ vol_ratio ≥ 2) ∧
        ¬(gap_pct ≥ 5 / 100 ∧ vol_ratio ≥ 3 / 2) ∧ ¬(vol_ratio ≥ 6 / 5) ∧
        institutional_interest gap_pct vol_ratio = 0)) := by
  unfold institutional_interest GAP_THRESHOLD VOL_RATIO_GOOD
  split_ifs with h1 h2 h3
  · exact ⟨Or.inr (Or.inr (Or.inr rfl)), Or.inl ⟨h1, rfl⟩⟩
  · exact ⟨Or.inr (Or.inr (Or.inl rfl)), Or.inr (Or.inl ⟨h1, h2, rfl⟩)⟩
  · exact ⟨Or.inr (Or.inl rfl), Or.inr (Or.inr (Or.inl ⟨h1, h2, h3, rfl⟩))⟩
  · exact ⟨Or.inl rfl, Or.inr (Or.inr (Or.inr ⟨h1, h2, h3, rfl⟩))⟩

/-- C10: for `gap_pct = 0.12`, `vol_ratio = 2.5`, `news_score = 4.0`, the
composite scorer yields `fresh = 4.0`, `institutional = 5.0`,
`justified = 4.0`, `rerating = 5.0` and
`overall = round(4*0.40 + 5*0.35 + 4*0.15 + 5*0.10, 2) = 4.45`. -/
theorem composite_example_values :
    fresh_catalyst 4 = 4 ∧
    institutional_interest (12 / 100) (5 / 2) = 5 ∧
    justified_story 4 5 = 4 ∧
    rerating 4 5 = 5 ∧
    overall_score 4 5 4 5 = 445 / 100 := by
  refine ⟨?_, ?_, ?_, ?_, ?_⟩
  · unfold fresh_catalyst
    norm_num
  · unfold institutional_interest GAP_THRESHOLD VOL_RATIO_GOOD
    norm_num
  · unfold justified_story
    norm_num
  · unfold rerating
    norm_num
  · unfold overall_score pyRound2 pyRoundInt
    norm_num

section ConcreteEvaluation
attribute [local semireducible] Rat.mul Rat.add Rat.inv Rat.sub Rat.ofScientific
set_option maxRecDepth 40000

/-- C1: evaluation of the code at a failing input for the claim. The ticker
`T` is processed without any exception (`error = none`) and with sufficient
history, yet its row carries no `institutional_interest_score` key — the
source computes `inst` at line 71 but the row dicts at lines 68 and 75 omit
it — and the insufficient-data row likewise lacks it while carrying the
other three sub-scores as `0.0`. -/
theorem scored_row_lacks_institutional_field :
    (processTicker okHistory okNews epochParse noIsoParse 0 "T".data).error =
        none ∧
      (processTicker okHistory okNews epochParse noIsoParse 0
          "T".data).institutional_interest_score = none ∧
      (processTicker okHistory okNews epochParse noIsoParse 0
          "T".data).fresh_catalyst_score = some 0 ∧
      (insufficientRow "T".data).institutional_interest_score = none ∧
      (insufficientRow "T".data).fresh_catalyst_score = some 0 ∧
      (insufficientRow "T".data).justified_story_score = some 0 ∧
      (insufficientRow "T".data).rerating_potential = some 0 ∧
      (insufficientRow "T".data).overall = 0 := by
  decide

/-- C2 counterexample: on a concrete 52-bar history the MetricsEngine
computes the fractional gap `1/10`, but the emitted row's `gap_pct` field is
`10` (the gap in percentage points, `round(0.1*100, 2)`), which differs from
the fraction. -/
theorem gap_pct_field_not_fraction :
    compute_gap_and_volume_metrics hist52 =
        some ⟨1 / 10, 100 / 51, 12, "2024-06-01".data⟩ ∧
      (processTicker okHistory okNews epochParse noIsoParse 0
          "T".data).gap_pct = some 10 ∧
      ¬((10 : ℚ) = 1 / 10) := by
  decide

end ConcreteEvaluation

/-- C2 (amended): for every successfully scored ticker, the `gap_pct` field
of its row equals `round(100 × m.gap_pct, 2)` where `m.gap_pct` is the
fractional gap the MetricsEngine computed — the gap in percentage points
rounded to two decimals. -/
theorem gap_pct_field_is_rounded_percent
    (getHistory : PyStr → Except PyStr (List PriceBar))
    (getNews : PyStr → Except PyStr (List NewsItem))
    (utc : ℤ → Option ℤ) (iso : PyStr → Option ℤ) (since_ts : ℤ)
    (t : PyStr) (h : List PriceBar) (ns : List NewsItem) (m : MetricResult)
    (hh : getHistory t = .ok h) (hn : getNews t = .ok ns)
    (hm : compute_gap_and_volume_metrics h = some m) :
    (processTicker getHistory getNews utc iso since_ts t).gap_pct =
      some (pyRound2 (m.gap_pct * 100)) := by
  unfold processTicker fetch_ticker_data
  rw [hh, hn]
  simp only [hm, scoredRow]

section ConcreteEvaluation2
attribute [local semireducible] Rat.mul Rat.add Rat.inv Rat.sub Rat.ofScientific
set_option maxRecDepth 40000

/-- Witness for the amended C2 theorem at the concrete 52-bar history. -/
theorem gap_pct_field_is_rounded_percent_witness :
    (processTicker okHistory okNews epochParse noIsoParse 0 "T".data).gap_pct =
      some (pyRound2 ((1 / 10) * 100)) :=
  gap_pct_field_is_rounded_percent okHistory okNews epochParse noIsoParse 0
    "T".data hist52 [] ⟨1 / 10, 100 / 51, 12, "2024-06-01".data⟩ rfl rfl
    (by decide)

end ConcreteEvaluation2

/-- C8: a ticker whose fetch raises does not abort the run. Its row is the
failure-shaped `errorRow` — `overall = 0.0`, a populated `error` field, and
no `gap_pct`, `vol_ratio` or sub-score fields, a shape distinct from the
zero-filled insufficient-data row — and every other ticker in the list is
still processed, before and after it. -/
theorem failing_ticker_isolated
    (getHistory : PyStr → Except PyStr (List PriceBar))
    (getNews : PyStr → Except PyStr (List NewsItem))
    (utc : ℤ → Option ℤ) (iso : PyStr → Option ℤ) (since_ts : ℤ)
    (ts1 ts2 : List PyStr) (t e : PyStr)
    (hfail : fetch_ticker_data getHistory getNews t = .error e) :
    build_rows getHistory getNews utc iso since_ts (ts1 ++ t :: ts2) =
        build_rows getHistory getNews utc iso since_ts ts1 ++
          errorRow t e :: build_rows getHistory getNews utc iso since_ts ts2 ∧
      (errorRow t e).overall = 0 ∧
      (errorRow t e).error = some e ∧
      (errorRow t e).gap_pct = none ∧
      (errorRow t e).vol_ratio = none ∧
      (errorRow t e).fresh_catalyst_score = none ∧
      (errorRow t e).institutional_interest_score = none ∧
      (errorRow t e).justified_story_score = none ∧
      (errorRow t e).rerating_potential = none ∧
      errorRow t e ≠ insufficientRow t := by
  refine ⟨?_, rfl, rfl, rfl, rfl, rfl, rfl, rfl, rfl, ?_⟩
  · unfold build_rows
    rw [List.map_append, List.map_cons]
    have hrow : processTicker getHistory getNews utc iso since_ts t =
        errorRow t e := by
      unfold processTicker
      rw [hfail]
    rw [hrow]
  · intro hcontra
    have : (errorRow t e).fresh_catalyst_score =
        (insufficientRow t).fresh_catalyst_score := by rw [hcontra]
    simp [errorRow, insufficientRow] at this

/-- Witness for C8: a concrete provider that raises `boom` on ticker `T` and
succeeds elsewhere; the `T` row is the failure row and the surrounding
tickers are still processed. -/
theorem failing_ticker_isolated_witness :
    build_rows mixedHistory okNews epochParse noIsoParse 0
        (["U".data] ++ "T".data :: ["V".data]) =
      build_rows mixedHistory okNews epochParse noIsoParse 0 ["U".data] ++
        errorRow "T".data "boom".data ::
          build_rows mixedHistory okNews epochParse noIsoParse 0 ["V".data] :=
  (failing_ticker_isolated mixedHistory okNews epochParse noIsoParse 0
    ["U".data] ["V".data] "T".data "boom".data rfl).1

/-- The most recent session of a history, as the spec phrases it (`getLast?`),
with a default for the impossible empty case. -/
def latestBar (hist : List PriceBar) : PriceBar := hist.getLast?.getD default

/-- The session before the most recent one. -/
def prevBar (hist : List PriceBar) : PriceBar :=
  hist.getD (hist.length - 2) default

/-- The claimed ADV: the trailing simple moving average of volume over the
window of positions `length - window + i` for `i < window`, i.e. the window
aligned to end at the most recent session. -/
def trailingADV (hist : List PriceBar) : ℚ :=
  ((List.range VOL_SMA_WINDOW).map
    (fun i =>
      (hist.getD (hist.length - VOL_SMA_WINDOW + i) default).volume)).sum /
    (VOL_SMA_WINDOW : ℚ)

theorem getD_lastPos_eq_latestBar (hist : List PriceBar) :
    hist.getD (hist.length - 1) default = latestBar hist := by
  unfold latestBar
  rw [List.getLast?_eq_getElem?, List.getD_eq_getElem?_getD]

theorem drop_window_sum_eq_range_sum (hist : List PriceBar)
    (h : VOL_SMA_WINDOW ≤ hist.length) :
    ((hist.drop (hist.length - VOL_SMA_WINDOW)).map PriceBar.volume).sum =
      ((List.range VOL_SMA_WINDOW).map
        (fun i =>
          (hist.getD (hist.length - VOL_SMA_WINDOW + i) default).volume)).sum
    := by
  congr 1
  apply List.ext_getElem
  · simp
    omega
  · intro i h1 h2
    simp only [List.getElem_map, List.getElem_range]
    have hlen : (hist.drop (hist.length - VOL_SMA_WINDOW)).length =
        VOL_SMA_WINDOW := by
      simp
      omega
    have hi : hist.length - VOL_SMA_WINDOW + i < hist.length := by
      simp only [List.length_map, hlen] at h1
      omega
    rw [List.getD_eq_getElem?_getD, List.getElem?_eq_getElem hi,
      Option.getD_some]
    congr 1
    have hb : i < (hist.drop (hist.length - VOL_SMA_WINDOW)).length := by
      simpa using h1
    have h3 : (hist.drop (hist.length - VOL_SMA_WINDOW))[i]? =
        hist[hist.length - VOL_SMA_WINDOW + i]? := List.getElem?_drop _ _ _
    rw [List.getElem?_eq_getElem hi, List.getElem?_eq_getElem hb] at h3
    exact Option.some_inj.mp h3

/-- C3: a history shorter than `window + 2` bars (window 50) yields the
insufficient-data result `none`, never a partial `MetricResult`; a history of
at least `window + 2` bars yields exactly `gap_pct = (latest open − previous
close) / previous close` with no clamping, and `vol_ratio = latest volume /
max(1.0, ADV)` with `trailingADV` the simple moving average of volume over
the window ending at the most recent session, plus the latest close and
date. -/
theorem metrics_insufficient_or_exact_formulas (hist : List PriceBar) :
    (hist.length < VOL_SMA_WINDOW + 2 →
        compute_gap_and_volume_metrics hist = none) ∧
      (VOL_SMA_WINDOW + 2 ≤ hist.length →
        compute_gap_and_volume_metrics hist =
          some { gap_pct := ((latestBar hist).openPrice -
                    (prevBar hist).closePrice) / (prevBar hist).closePrice
                 vol_ratio := (latestBar hist).volume /
                    max 1 (trailingADV hist)
                 close := (latestBar hist).closePrice
                 date := (latestBar hist).date }) := by
  constructor
  · intro h
    unfold compute_gap_and_volume_metrics
    rw [if_pos h]
  · intro h
    unfold compute_gap_and_volume_metrics
    rw [if_neg (by omega)]
    dsimp only
    rw [getD_lastPos_eq_latestBar hist,
      drop_window_sum_eq_range_sum hist (by omega)]
    rfl

section ConcreteEvaluation3
attribute [local semireducible] Rat.mul Rat.add Rat.inv Rat.sub Rat.ofScientific
set_option maxRecDepth 40000

/-- Witness for C3: the 2-bar history is rejected, and on the concrete
52-bar history both the formula shape and the fully evaluated metric values
are obtained. -/
theorem metrics_insufficient_or_exact_formulas_witness :
    compute_gap_and_volume_metrics histShort = none ∧
      compute_gap_and_volume_metrics hist52 =
        some { gap_pct := ((latestBar hist52).openPrice -
                  (prevBar hist52).closePrice) / (prevBar hist52).closePrice
               vol_ratio := (latestBar hist52).volume /
                  max 1 (trailingADV hist52)
               close := (latestBar hist52).closePrice
               date := (latestBar hist52).date } ∧
      compute_gap_and_volume_metrics hist52 =
        some ⟨1 / 10, 100 / 51, 12, "2024-06-01".data⟩ :=
  ⟨(metrics_insufficient_or_exact_formulas histShort).1 (by decide),
   (metrics_insufficient_or_exact_formulas hist52).2 (by decide),
   by decide⟩

end ConcreteEvaluation3

theorem strLeB_total (a : PyStr) : ∀ b : PyStr,
    strLeB a b = true ∨ strLeB b a = true := by
  induction a with
  | nil => intro b; exact Or.inl rfl
  | cons x xs ih =>
    intro b
    cases b with
    | nil => exact Or.inr rfl
    | cons y ys =>
      rcases Nat.lt_trichotomy x.toNat y.toNat with h | h | h
      · left
        simp [strLeB, h]
      · have h1 : ¬x.toNat < y.toNat := by omega
        have h2 : ¬y.toNat < x.toNat := by omega
        rcases ih ys with hl | hr
        · left
          simp [strLeB, h1, h2, hl]
        · right
          simp [strLeB, h1, h2, hr]
      · right
        simp [strLeB, h]

theorem strLeB_trans (a : PyStr) : ∀ b c : PyStr,
    strLeB a b = true → strLeB b c = true → strLeB a c = true := by
  induction a with
  | nil => intro b c _ _; rfl
  | cons x xs ih =>
    intro b c hab hbc
    cases b with
    | nil => simp [strLeB] at hab
    | cons y ys =>
      cases c with
      | nil => simp [strLeB] at hbc
      | cons z zs =>
        rcases Nat.lt_trichotomy x.toNat y.toNat with hxy | hxy | hxy
        · rcases Nat.lt_trichotomy y.toNat z.toNat with hyz | hyz | hyz
          · simp [strLeB, show x.toNat < z.toNat by omega]
          · simp [strLeB, show x.toNat < z.toNat by omega]
          · simp [strLeB, show ¬y.toNat < z.toNat by omega, hyz] at hbc
        · rcases Nat.lt_trichotomy y.toNat z.toNat with hyz | hyz | hyz
          · simp [strLeB, show x.toNat < z.toNat by omega]
          · have hab2 : strLeB xs ys = true := by
              simpa [strLeB, show ¬x.toNat < y.toNat by omega,
                show ¬y.toNat < x.toNat by omega] using hab
            have hbc2 : strLeB ys zs = true := by
              simpa [strLeB, show ¬y.toNat < z.toNat by omega,
                show ¬z.toNat < y.toNat by omega] using hbc
            simp [strLeB, show ¬x.toNat < z.toNat by omega,
              show ¬z.toNat < x.toNat by omega, ih ys zs hab2 hbc2]
          · simp [strLeB, show ¬y.toNat < z.toNat by omega, hyz] at hbc
        · simp [strLeB, show ¬x.toNat < y.toNat by omega, hxy] at hab

theorem mem_diff_side (u v : List PyStr) (x : PyStr) :
    (x ∈ sortStable strLeB
        ((u.dedup).filter (fun t => t ∉ v.dedup))) ↔ x ∈ u ∧ x ∉ v := by
  rw [(perm_sortStable strLeB _).mem_iff, List.mem_filter, List.mem_dedup]
  simp [List.mem_dedup]

theorem nodup_diff_side (u v : List PyStr) :
    (sortStable strLeB ((u.dedup).filter (fun t => t ∉ v.dedup))).Nodup := by
  rw [(perm_sortStable strLeB _).nodup_iff]
  exact (List.nodup_dedup u).filter _

/-- C9: the universe diff returns `added = current − previous` and
`removed = previous − current`, each lexicographically sorted and
duplicate-free; an empty previous-universe text (what the shell pipeline
yields when the external `git show` fails or the file is absent) gives an
empty previous set — everything from the current set is `added`, nothing is
`removed` — and never an error; on the spec example
`previous = {A,B,C}`, `current = {B,C,D}` the result is
`added = [D]`, `removed = [A]`. -/
theorem diff_sorted_unique_exact (p c : PyStr) :
    (∀ x, x ∈ (compute_diff p c).1 ↔
        x ∈ load_tickers c ∧ x ∉ load_tickers p) ∧
      (∀ x, x ∈ (compute_diff p c).2 ↔
        x ∈ load_tickers p ∧ x ∉ load_tickers c) ∧
      (compute_diff p c).1.Pairwise (fun a b => strLeB a b = true) ∧
      (compute_diff p c).1.Nodup ∧
      (compute_diff p c).2.Pairwise (fun a b => strLeB a b = true) ∧
      (compute_diff p c).2.Nodup ∧
      (compute_diff [] c).2 = [] ∧
      (∀ x, x ∈ (compute_diff [] c).1 ↔ x ∈ load_tickers c) ∧
      compute_diff "A,B,C".data "B,C,D".data = (["D".data], ["A".data]) := by
  refine ⟨?_, ?_, ?_, ?_, ?_, ?_, ?_, ?_, by decide⟩
  · intro x
    exact mem_diff_side (load_tickers c) (load_tickers p) x
  · intro x
    exact mem_diff_side (load_tickers p) (load_tickers c) x
  · exact pairwise_sortStable strLeB strLeB_total strLeB_trans _
  · exact nodup_diff_side (load_tickers c) (load_tickers p)
  · exact pairwise_sortStable strLeB strLeB_total strLeB_trans _
  · exact nodup_diff_side (load_tickers p) (load_tickers c)
  · rfl
  · intro x
    have h := mem_diff_side (load_tickers c) (load_tickers []) x
    have h0 : load_tickers ([] : PyStr) = [] := rfl
    rw [h0] at h
    exact h.trans (by simp)
